import Mathlib

/-!
# Verification of `cppincludes2dot.py`

A shallow embedding of `cppincludes2dot.py` (an include-dependency graph
generator for C/C++) together with proofs about the claims of its
specification.

Conventions of the embedding:
* Paths and file contents are `String`s / `List String` (lines).
* The file system is a list of existing paths (`fs : List String`);
  `os.path.exists p` becomes `fs.contains p`.
* The program runs on POSIX (`os.path` = `posixpath`); `os.path.normcase`
  is the identity there and is dropped.
* Python `dict`s (which preserve insertion order and whose `update`
  overwrites values at existing keys) are modelled as insertion-ordered
  association lists with unique keys; Python `set`s are modelled as
  insertion-deduplicated lists (their real iteration order is abstracted,
  which no claim below depends on: the one set that is printed unsorted is
  the cluster set, and it is only compared against itself).
* Regular expressions are translated to their matching semantics on
  `List Char` (Python `re` uses backtracking with lazy/greedy quantifiers;
  the relevant behaviours are spelled out at each definition).
* `IOError` on opening/reading a file is modelled by `Except Unit`
  content in `PyFile`.
-/

namespace Cpp2Dot

/-! ## String primitives

`String.startsWith`, `String.endsWith`, `String.splitOn`, … are opaque to
kernel reduction (they go through `Substring` byte positions), so the
embedding uses character-list based equivalents throughout. -/

/-- `s.startswith t` (Python) / `String.startsWith`. -/
def strStarts (s t : String) : Bool := t.data.isPrefixOf s.data

/-- `s.endswith t` (Python) / `String.endsWith`. -/
def strEnds (s t : String) : Bool := t.data.isSuffixOf s.data

/-- `str.split(ch)` on a character list (every occurrence separates;
empty components are kept, as in Python `split` with an argument). -/
def splitOnChar (ch : Char) : List Char → List (List Char)
  | [] => [[]]
  | c :: rest =>
    match splitOnChar ch rest with
    | [] => [[]]
    | comp :: comps =>
      if c = ch then [] :: comp :: comps else (c :: comp) :: comps

/-! ## POSIX path helpers (`posixpath` semantics) -/

/-- `posixpath.dirname`: everything before the final slash, with trailing
slashes stripped unless the result consists only of slashes. -/
def dirname (p : String) : String :=
  let l := p.data
  match l.reverse.findIdx? (· = '/') with
  | none => ""
  | some i =>
    let head := l.take (l.length - i)   -- up to and including the last '/'
    if head.all (· = '/') then String.mk head
    else String.mk (head.reverse.dropWhile (· = '/')).reverse

/-- `posixpath.basename`: everything after the final slash. -/
def basename (p : String) : String :=
  match p.data.reverse.findIdx? (· = '/') with
  | none => p
  | some i => String.mk (p.data.drop (p.data.length - i))

/-- `posixpath.join` restricted to two arguments, as the program uses it. -/
def joinPath (a b : String) : String :=
  if strStarts b "/" then b
  else if a = "" ∨ strEnds a "/" then a ++ b
  else a ++ "/" ++ b

/-! `tidy_path` applies `re.sub(r'[^/]+?/\.\./', '', path)` (after
`os.path.normcase`, the identity on POSIX).  `re.sub` scans left to right;
at a given start position the lazy `[^/]+?` grows a nonempty run of
non-slash characters until the first slash, which must begin `"/../"`,
otherwise there is no match at that position.  After a (empty) replacement
scanning resumes after the removed span. -/

/-- Scan to the first '/' of `l`; succeed with the remainder if that slash
begins `"/../"` (the lazy `[^/]+?/\.\./` match continuation). -/
def tidyFind : List Char → Option (List Char)
  | [] => none
  | c :: rest =>
    if c = '/' then
      if rest.take 3 = ['.', '.', '/'] then some (rest.drop 3) else none
    else tidyFind rest

theorem tidyFind_length : ∀ {l t : List Char}, tidyFind l = some t →
    t.length + 4 ≤ l.length := by
  intro l
  induction l with
  | nil => intro t h; simp [tidyFind] at h
  | cons c rest ih =>
    intro t h
    by_cases hc : c = '/'
    · simp only [tidyFind, hc, if_true] at h
      by_cases ht : rest.take 3 = ['.', '.', '/']
      · rw [if_pos ht] at h
        have hlen : rest.length ≥ 3 := by
          have := congrArg List.length ht
          simp at this
          omega
        cases h
        simp
        omega
      · rw [if_neg ht] at h
        exact absurd h (by simp)
    · simp only [tidyFind, hc, if_false] at h
      have := ih h
      simp
      omega

/-- One left-to-right `re.sub(r'[^/]+?/\.\./', '', ·)` pass.  The `fuel`
argument only bounds the recursion depth structurally; every step strictly
shortens the list, so `fuel = l.length` (as used by `tidy_path`) never
runs out — see `tidySub_fuel_irrelevant`. -/
def tidySub : Nat → List Char → List Char
  | 0, l => l
  | _ + 1, [] => []
  | fuel + 1, c :: rest =>
    if c = '/' then c :: tidySub fuel rest
    else
      match tidyFind rest with
      | some tail => tidySub fuel tail
      | none => c :: tidySub fuel rest

/-- Any fuel of at least the list length computes the same result, so the
`0` fuel case above is never reached from `tidy_path`. -/
theorem tidySub_fuel_irrelevant : ∀ (f g : Nat) (l : List Char),
    l.length ≤ f → l.length ≤ g → tidySub f l = tidySub g l := by
  intro f
  induction f with
  | zero =>
    intro g l hf _
    have : l = [] := List.eq_nil_of_length_eq_zero (Nat.le_zero.mp hf)
    subst this
    cases g <;> rfl
  | succ f ih =>
    intro g l hf hg
    cases g with
    | zero =>
      have : l = [] := List.eq_nil_of_length_eq_zero (Nat.le_zero.mp hg)
      subst this; rfl
    | succ g =>
      cases l with
      | nil => rfl
      | cons c rest =>
        simp only [tidySub]
        by_cases hc : c = '/'
        · simp only [hc, if_true]
          rw [ih g rest (by simp at hf; omega) (by simp at hg; omega)]
        · simp only [hc, if_false]
          cases ht : tidyFind rest with
          | some tail =>
            have := tidyFind_length ht
            simp at hf hg
            show tidySub f tail = tidySub g tail
            exact ih g tail (by omega) (by omega)
          | none =>
            show c :: tidySub f rest = c :: tidySub g rest
            rw [ih g rest (by simp at hf; omega) (by simp at hg; omega)]

/-- `tidy_path` from `search_includes`: removes excess `seg/../` parts. -/
def tidy_path (p : String) : String := String.mk (tidySub p.data.length p.data)

/-- `posixpath.normpath`. -/
def normpath (path : String) : String :=
  if path = "" then "."
  else
    let initialSlashes : Nat :=
      if strStarts path "/" then
        if strStarts path "//" && !(strStarts path "///") then 2 else 1
      else 0
    let comps := (splitOnChar '/' path.data).map String.mk
    let newComps := comps.foldl (fun acc comp =>
      if comp = "" || comp = "." then acc
      else if comp ≠ ".." || (initialSlashes = 0 && acc.isEmpty)
              || (!acc.isEmpty && acc.getLast? = some "..") then acc ++ [comp]
      else if !acc.isEmpty then acc.dropLast
      else acc) []
    let res := String.mk (List.replicate initialSlashes '/')
                 ++ String.intercalate "/" newComps
    if res = "" then "." else res

/-- `posixpath.abspath`, with the process working directory `cwd` passed
explicitly (it must be an absolute path, as `os.getcwd()` returns). -/
def abspath (cwd path : String) : String :=
  if strStarts path "/" then normpath path else normpath (joinPath cwd path)

/-- Length of the longest common prefix of two lists
(`os.path.commonprefix` on split path components). -/
def commonPrefixLen : List String → List String → Nat
  | a :: as, b :: bs => if a = b then commonPrefixLen as bs + 1 else 0
  | _, _ => 0

/-- `os.path.relpath(path)` with the default start `'.'`, `cwd` explicit. -/
def relpath (cwd path : String) : String :=
  let startList := ((splitOnChar '/' (abspath cwd ".").data).map String.mk).filter (· ≠ "")
  let pathList := ((splitOnChar '/' (abspath cwd path).data).map String.mk).filter (· ≠ "")
  let i := commonPrefixLen startList pathList
  let relList := List.replicate (startList.length - i) ".." ++ pathList.drop i
  if relList.isEmpty then "." else String.intercalate "/" relList

/-! ## The include-line regular expressions (`build_include_regex`)

The three patterns of `build_include_regex` are
`r"^#\s*include\s+<(\S+)>"`, `r'^#\s*include\s+"(\S+)"'` and
`r"^#\s*include\s+(\S+)"`, applied with `re.match` (anchored at the start,
trailing text ignored).  `\s*`/`\s+` are forced to end exactly at the
first non-space character because what follows in each pattern is
non-space.  The greedy `\S+` before a closing delimiter backtracks to the
*last* occurrence of the delimiter inside the maximal non-space run. -/

/-- Python `\s` (ASCII whitespace classes relevant here). -/
def isPySpace (c : Char) : Bool :=
  c = ' ' || c = '\t' || c = '\n' || c = '\r' || c = '\x0b' || c = '\x0c'

/-- Consume `^#\s*include`; return the rest of the line on success. -/
def matchIncludeHead (l : List Char) : Option (List Char) :=
  match l with
  | '#' :: rest =>
    let rest := rest.dropWhile isPySpace
    if "include".data.isPrefixOf rest then some (rest.drop 7) else none
  | _ => none

/-- Consume `\s+` (at least one whitespace character, then all of them). -/
def matchWs1 : List Char → Option (List Char)
  | c :: rest => if isPySpace c then some (rest.dropWhile isPySpace) else none
  | [] => none

/-- Longest proper prefix of `l` lying before the last occurrence of `ch`:
the group a greedy `(\S+)` delivers when the pattern continues with the
literal `ch`. -/
def beforeLast (ch : Char) : List Char → Option (List Char)
  | [] => none
  | c :: rest =>
    match beforeLast ch rest with
    | some p => some (c :: p)
    | none => if c = ch then some [] else none

/-- Match `^#\s*include\s+X(\S+)Y` where `X`/`Y` are one-character
delimiters, returning group 1. -/
def matchDelimited (lft rgt : Char) (l : List Char) : Option (List Char) :=
  match matchIncludeHead l with
  | none => none
  | some r =>
    match matchWs1 r with
    | none => none
    | some r2 =>
      match r2 with
      | c :: rest =>
        if c = lft then
          let run := rest.takeWhile (fun c => !isPySpace c)
          match beforeLast rgt run with
          | some p => if p.isEmpty then none else some p
          | none => none
        else none
      | [] => none

/-- Match `^#\s*include\s+(\S+)` (the catch-all pattern), returning
group 1: the maximal non-space run. -/
def matchBare (l : List Char) : Option (List Char) :=
  match matchIncludeHead l with
  | none => none
  | some r =>
    match matchWs1 r with
    | none => none
    | some r2 =>
      let run := r2.takeWhile (fun c => !isPySpace c)
      if run.isEmpty then none else some run

/-- `build_include_regex` + application of the chosen regex to one line
(`include_regex.match(line)`, group 1).  Note the source selects the
quote-only pattern on the literal `'system'` — the value `'quote'`
documented by `show_usage` falls through to the catch-all pattern. -/
def include_match (quote_types : String) (line : List Char) : Option (List Char) :=
  if quote_types = "angle" then matchDelimited '<' '>' line
  else if quote_types = "system" then matchDelimited '"' '"' line
  else matchBare line

/-! ## Program constants and configuration -/

def PROGRAM_VERSION : String := "0.1"

/-- `os.path.basename(sys.argv[0])` for the installed script. -/
def PROGRAM_NAME : String := "cppincludes2dot.py"

def C_FILE_SUFFIXES : List String := ["c", "cc", "cxx", "cpp", "C", "h", "hpp", "hxx"]

/-- The program options produced by `parse_cmdline_options` that the
dependency-collection pipeline reads (`output`/`type`/`exclude` only steer
I/O and file filtering and are handled outside these definitions). -/
structure Context where
  include_paths : List String := []
  paths : Bool := false             -- context['paths'] is [] (falsy) or True
  merge : String := "file"
  src_dir : String := "."
  quote_types : String := "both"
  groups : Bool := false            -- context['groups'] is '' (falsy) or True
deriving Repr, DecidableEq

/-- A collected source file: its (relative) path and the outcome of
`open(file_name, 'r')` + iteration — `.error` models an `IOError`. -/
structure PyFile where
  name : String
  content : Except Unit (List String)

/-! ## File collection (`collect_cfiles`) -/

/-- Semantics of `re.match(r".*\.(c|cc|cxx|cpp|C|h|hpp|hxx)$", name)`:
the name ends in a dot followed by one of the suffixes.  (At most one
alternative can match since no suffix contains a dot, so testing them in
any order is equivalent; file names contain no newline, so `.*` is
unrestricted.) -/
def c_file_match (name : String) : Bool :=
  C_FILE_SUFFIXES.any (fun s => strEnds name ("." ++ s))

/-- `collect_cfiles`: walk the source tree and keep the C/C++ files,
as paths relative to the working directory.  The `os.walk` result is the
explicit input `walk`: a list of `(dirpath, filenames)` entries. -/
def collect_cfiles (cwd : String) (walk : List (String × List String)) : List String :=
  walk.flatMap (fun e =>
    (e.2.filter c_file_match).map (fun name => relpath cwd (joinPath e.1 name)))

/-! ## Include resolution (`search_includes`) -/

/-- The user-include-path loop of `search_includes`. -/
def searchLoop (incl_stmt : String) (fs : List String) : List String → Option String
  | [] => none
  | p :: rest =>
    let tmp := tidy_path (joinPath p incl_stmt)
    if fs.contains tmp then some tmp else searchLoop incl_stmt fs rest

/-- `search_includes(incl_stmt, filename, include_paths)`, with the set of
paths existing on disk passed as `fs`. -/
def search_includes (incl_stmt filename : String) (include_paths : List String)
    (fs : List String) : Option String :=
  let rel_path := tidy_path (joinPath (dirname filename) incl_stmt)
  if fs.contains rel_path then some rel_path
  else
    match searchLoop incl_stmt fs include_paths with
    | some tmp => some tmp
    | none => if fs.contains incl_stmt then some incl_stmt else none

/-! ## Display names (`to_display_version`) -/

/-- `to_display_version`: basename unless `--paths`, and under `module`
merge strip a C/C++ suffix (`re.sub(r'\.(c|cc|…|hxx)$', '', ·)`; at most
one alternative can be an end-suffix, see `c_file_match`). -/
def to_display_version (filename : String) (paths : Bool) (merge : String) : String :=
  let filename := if !paths then basename filename else filename
  if merge = "module" then
    match C_FILE_SUFFIXES.find? (fun s => strEnds filename ("." ++ s)) with
    | some s => String.mk (filename.data.take (filename.data.length - (s.data.length + 1)))
    | none => filename
  else filename

/-! ## Per-file extraction (`collect_include_dependencies`) -/

/-- The DOT templates, with text braces written via their escapes. -/
def DOT_EDGE_DEFINITION (dest source : String) : String :=
  "    \"" ++ dest ++ "\" -> \"" ++ source ++ "\""

def DOT_SUB_GRAPH (cluster lbl node : String) : String :=
  "\nsubgraph \"cluster" ++ cluster ++ "\" \x7b\n    label=\"" ++ lbl
    ++ "\";\n    \"" ++ node ++ "\";\n\x7d\n"

/-- Increment a key of an insertion-ordered counting dict
(`edges[edge] = edges.get(edge, 0) + 1`). -/
def bump : List (String × Nat) → String → List (String × Nat)
  | [], k => [(k, 1)]
  | (k', v) :: rest, k =>
    if k' = k then (k', v + 1) :: rest else (k', v) :: bump rest k

/-- `set.add` on the insertion-ordered list model of a Python set. -/
def setAdd (s : List String) (x : String) : List String :=
  if s.contains x then s else s ++ [x]

/-- `put_edge_def(edges, source, dest)` — note the template is filled as
`DOT_EDGE_DEFINITION % (dest, source)`. -/
def put_edge_def (edges : List (String × Nat)) (source dest : String) :
    List (String × Nat) :=
  bump edges (DOT_EDGE_DEFINITION dest source)

/-- `put_cluster_def(clusters, group_name, file_name)`. -/
def put_cluster_def (clusters : List String) (group_name file_name : String) :
    List String :=
  let group_name := dirname group_name
  setAdd clusters (DOT_SUB_GRAPH group_name group_name file_name)

/-- The accumulator of the extraction pass: the edge-count dict, the
cluster set and the unresolved-reference set. -/
structure DepState where
  edges : List (String × Nat) := []
  clusters : List String := []
  notfound : List String := []
deriving Repr, DecidableEq

/-- `re.sub(r'[\<\>"]', '', included)`. -/
def raw_of (included : List Char) : String :=
  String.mk (included.filter (fun c => !(c = '<' || c = '>' || c = '"')))

/-- `merge_directory(file, edges, include_file)`. -/
def merge_directory (fname : String) (edges : List (String × Nat))
    (include_file : String) : List (String × Nat) :=
  let origin := dirname include_file
  let destination := dirname fname
  if origin ≠ destination then put_edge_def edges origin destination else edges

/-- The non-`directory` part of the loop body: display-name computation,
optional cluster recording, and the guarded edge insertion. -/
def put_display_edge (ctx : Context) (st : DepState) (include_file fname : String) :
    DepState :=
  let includefile_display := to_display_version include_file ctx.paths ctx.merge
  let file_display := to_display_version fname ctx.paths ctx.merge
  let newClusters :=
    put_cluster_def (put_cluster_def st.clusters include_file includefile_display)
      fname file_display
  let st := if ctx.groups then { st with clusters := newClusters } else st
  if file_display ≠ includefile_display then
    { st with edges := put_edge_def st.edges includefile_display file_display }
  else st

/-- Processing of one line of the scanned file (the body of the `for line
in file` loop of `collect_include_dependencies`). -/
def processLine (ctx : Context) (fs : List String) (fname : String)
    (st : DepState) (line : String) : DepState :=
  match include_match ctx.quote_types line.data with
  | none => st
  | some grp =>
    let included := String.mk grp
    let raw_included := raw_of grp
    match search_includes raw_included fname ctx.include_paths fs with
    | none => { st with notfound := setAdd st.notfound (included ++ " from " ++ fname) }
    | some include_file =>
      if ctx.merge = "directory" then
        { st with edges := merge_directory fname st.edges include_file }
      else
        put_display_edge ctx st include_file fname

/-- `collect_include_dependencies(file, context)` for a file with path
`fname` and line list `lines`. -/
def collect_include_dependencies (ctx : Context) (fs : List String)
    (fname : String) (lines : List String) : DepState :=
  lines.foldl (processLine ctx fs fname) {}

/-! ## Whole-scan accumulation (`collect_dependencies`) -/

/-- Python `dict.update`: values of keys already present are replaced in
place (not added!), unseen keys are appended in the argument's order. -/
def dictUpdate (old new_ : List (String × Nat)) : List (String × Nat) :=
  old.map (fun kv =>
    match new_.find? (fun kv2 => kv2.1 = kv.1) with
    | some kv2 => (kv.1, kv2.2)
    | none => kv)
  ++ new_.filter (fun kv2 => !old.any (fun kv => kv.1 = kv2.1))

/-- Python `set.update` on the list model. -/
def setUnion (old new_ : List String) : List String := new_.foldl setAdd old

/-- `file_name.rstrip('\n')` followed by `re.sub(r'^\./', '', ·)` (the
anchored pattern fires at most once, at the very start). -/
def stripDotSlash (n : String) : String :=
  let base := String.mk (n.data.reverse.dropWhile (· = '\n')).reverse
  if "./".data.isPrefixOf base.data then String.mk (base.data.drop 2) else base

/-- One iteration of the file loop of `collect_dependencies`; the second
component accumulates the messages passed to `log` (printed to stderr
when `--debug` is active). -/
def depStep (ctx : Context) (fs : List String)
    (acc : DepState × List String) (file : PyFile) : DepState × List String :=
  let fname := stripDotSlash file.name
  match file.content with
  | .error _ =>
    (acc.1, acc.2 ++ ["error while reading file_name \x27" ++ fname ++ "\x27"])
  | .ok lines =>
    let st := collect_include_dependencies ctx fs fname lines
    ({ edges := dictUpdate acc.1.edges st.edges,
       clusters := setUnion acc.1.clusters st.clusters,
       notfound := setUnion acc.1.notfound st.notfound }, acc.2)

/-- `collect_dependencies(context)` over the already-collected (and
exclude-filtered) file list, with read outcomes supplied in `files`. -/
def collect_dependencies (ctx : Context) (fs : List String)
    (files : List PyFile) : DepState × List String :=
  files.foldl (depStep ctx fs) ({}, [])

/-! ## Output (`output_dependencies` and its writers) -/

def DOT_GRAPH_HEADER (srcdir progname version ts : String) : String :=
  "\ndigraph \"source tree\" \x7b\n    overlap=scale;\n    size=\"8,10\";\n    "
    ++ "ratio=\"fill\";\n    fontsize=\"16\";\n    fontname=\"Helvetica\";\n    "
    ++ "clusterrank=\"local\";\n    label=\"Include dependency diagram for \x27"
    ++ srcdir ++ "\x27; created by " ++ progname ++ " v" ++ version ++ " at "
    ++ ts ++ "\";\n"

/-- `write_header`; `realcwd` stands for `os.path.realpath('.')`, `ts` for
`time.strftime(...)` — both runtime inputs. -/
def write_header (srcdir realcwd ts : String) : String :=
  let srcdir := if srcdir = "." then basename realcwd else srcdir
  DOT_GRAPH_HEADER srcdir PROGRAM_NAME PROGRAM_VERSION ts

/-- `write_edge_definitions`: one line per edge, `penwidth` annotation
exactly when the count exceeds one. -/
def write_edge_definitions (edges : List (String × Nat)) : String :=
  String.join (edges.map (fun kv =>
    (if kv.2 > 1 then kv.1 ++ " [penwidth=" ++ toString kv.2 ++ "]" else kv.1) ++ "\n"))

/-- `write_cluster_definitions` (Python 2 `map` is eager). -/
def write_cluster_definitions (clusters : List String) : String :=
  String.join (clusters.map (· ++ "\n"))

def write_footer : String := "\x7d\n"

/-- The sorted message list written by `alert_notfounds`.  Python
`sorted` sorts lexicographically by code point, which is `≤` on `String`;
since `≤` is a linear order and the set holds no duplicates, any sort
computes the same list — we use Mathlib's insertion sort. -/
def alert_lines (not_found : List String) : List String :=
  (not_found.insertionSort (· ≤ ·)).map
    (fun msg => "Include file_name not found: " ++ msg ++ "\n")

/-- `alert_notfounds` (stderr text; Python 2 `map` is eager). -/
def alert_notfounds (not_found : List String) : String :=
  String.join (alert_lines not_found)

/-- `output_dependencies`: the graph text written to the output sink and
the diagnostic text written to stderr.  (Piping to `dot` for non-default
`--type` only redirects the same text.) -/
def output_dependencies (ctx : Context) (realcwd ts : String) (st : DepState) :
    String × String :=
  (write_header ctx.src_dir realcwd ts
     ++ write_edge_definitions st.edges
     ++ write_cluster_definitions st.clusters
     ++ write_footer,
   alert_notfounds st.notfound)

/-! ## Specification-side definitions (for refinement statements) -/

/-- The candidate list of §4.3 of the specification: the token relative to
the including file's directory (tidied), then joined to each extra include
directory in order, then relative to the working directory. -/
def resolve_candidates (incl_stmt filename : String) (include_paths : List String) :
    List String :=
  tidy_path (joinPath (dirname filename) incl_stmt)
    :: (include_paths.map (fun p => tidy_path (joinPath p incl_stmt)) ++ [incl_stmt])

/-! ## Shared lemmas -/

theorem searchLoop_eq_find? (incl_stmt : String) (fs : List String) :
    ∀ ps : List String, searchLoop incl_stmt fs ps
      = (ps.map (fun p => tidy_path (joinPath p incl_stmt))).find? (fs.contains ·) := by
  intro ps
  induction ps with
  | nil => rfl
  | cons p rest ih =>
    simp only [List.map_cons]
    by_cases h : fs.contains (tidy_path (joinPath p incl_stmt)) = true
    · rw [List.find?_cons_of_pos _ h]
      simp only [searchLoop, h, if_true]
    · rw [List.find?_cons_of_neg _ (by simpa using h)]
      have h' : fs.contains (tidy_path (joinPath p incl_stmt)) = false := by
        simpa using h
      simp only [searchLoop, h', if_false, Bool.false_eq_true]
      exact ih

/-- Keys inserted by `bump` are the old keys plus the bumped key. -/
theorem bump_forall (P : String → Prop) :
    ∀ {es : List (String × Nat)} {k : String},
      (∀ kv ∈ es, P kv.1) → P k → ∀ kv ∈ bump es k, P kv.1 := by
  intro es
  induction es with
  | nil =>
    intro k _ hk kv hkv
    simp [bump] at hkv
    subst hkv
    exact hk
  | cons hd tl ih =>
    intro k hes hk kv hkv
    simp only [bump] at hkv
    by_cases hhd : hd.1 = k
    · rw [if_pos hhd] at hkv
      rcases List.mem_cons.mp hkv with h | h
      · subst h; exact hes hd (by simp)
      · exact hes kv (by simp [h])
    · rw [if_neg hhd] at hkv
      rcases List.mem_cons.mp hkv with h | h
      · subst h; exact hes hd (by simp)
      · exact ih (fun kv h => hes kv (by simp [h])) hk kv h

/-- The `C_FILE_SUFFIXES` regular expression matches exactly the names
that decompose as `stem ++ "." ++ suffix`. -/
theorem c_file_match_iff (name : String) :
    c_file_match name = true
      ↔ ∃ s ∈ C_FILE_SUFFIXES, ∃ stem : String, name = stem ++ "." ++ s := by
  unfold c_file_match strEnds
  rw [List.any_eq_true]
  constructor
  · rintro ⟨s, hs, hsuf⟩
    refine ⟨s, hs, ?_⟩
    have h := (List.isSuffixOf_iff_suffix.mp hsuf)
    rcases h with ⟨t, ht⟩
    refine ⟨String.mk t, ?_⟩
    apply String.ext
    simp only [String.data_append]
    rw [← ht]
    simp [String.data_append]
  · rintro ⟨s, hs, stem, hstem⟩
    refine ⟨s, hs, List.isSuffixOf_iff_suffix.mpr ⟨stem.data, ?_⟩⟩
    rw [hstem]
    simp [String.data_append]

/-- Edge keys added by `put_display_edge` are `DOT_EDGE_DEFINITION`s of
two *different* display names. -/
theorem put_display_edge_wf (ctx : Context) (st : DepState)
    (include_file fname : String)
    (h : ∀ kv ∈ st.edges, ∃ d s, d ≠ s ∧ kv.1 = DOT_EDGE_DEFINITION d s) :
    ∀ kv ∈ (put_display_edge ctx st include_file fname).edges,
      ∃ d s, d ≠ s ∧ kv.1 = DOT_EDGE_DEFINITION d s := by
  unfold put_display_edge
  by_cases hne : to_display_version fname ctx.paths ctx.merge
      ≠ to_display_version include_file ctx.paths ctx.merge
  · rw [if_pos hne]
    by_cases hg : ctx.groups = true <;> simp only [hg, if_true, if_false,
        Bool.false_eq_true] <;>
      exact bump_forall (fun x => ∃ d s, d ≠ s ∧ x = DOT_EDGE_DEFINITION d s) h
        ⟨_, _, hne, rfl⟩
  · rw [if_neg hne]
    by_cases hg : ctx.groups = true <;> simp only [hg, if_true, if_false,
        Bool.false_eq_true] <;> exact h

/-- Every key of the edge dict produced by one line step is either an old
key or a `DOT_EDGE_DEFINITION` of two *different* display names. -/
theorem processLine_edges_wf (ctx : Context) (fs : List String) (fname : String)
    (st : DepState) (line : String)
    (h : ∀ kv ∈ st.edges, ∃ d s, d ≠ s ∧ kv.1 = DOT_EDGE_DEFINITION d s) :
    ∀ kv ∈ (processLine ctx fs fname st line).edges,
      ∃ d s, d ≠ s ∧ kv.1 = DOT_EDGE_DEFINITION d s := by
  simp only [processLine]
  split
  · exact h
  · split
    · exact h
    · split
      · simp only [merge_directory, put_edge_def]
        split
        · next hne =>
            exact bump_forall (fun x => ∃ d s, d ≠ s ∧ x = DOT_EDGE_DEFINITION d s) h
              ⟨_, _, fun e => hne e.symm, rfl⟩
        · exact h
      · exact put_display_edge_wf ctx st _ fname h

theorem collect_include_dependencies_edges_wf (ctx : Context) (fs : List String)
    (fname : String) (lines : List String) :
    ∀ kv ∈ (collect_include_dependencies ctx fs fname lines).edges,
      ∃ d s, d ≠ s ∧ kv.1 = DOT_EDGE_DEFINITION d s := by
  unfold collect_include_dependencies
  generalize hst : ({} : DepState) = st
  have h0 : ∀ kv ∈ st.edges, ∃ d s, d ≠ s ∧ kv.1 = DOT_EDGE_DEFINITION d s := by
    subst hst; intro kv hkv; simp at hkv
  clear hst
  induction lines generalizing st with
  | nil => exact h0
  | cons line rest ih =>
    exact ih _ (processLine_edges_wf ctx fs fname st line h0)

/-- `dict.update` introduces no keys beyond those of its two arguments. -/
theorem dictUpdate_forall (P : String → Prop) (old new_ : List (String × Nat))
    (hold : ∀ kv ∈ old, P kv.1) (hnew : ∀ kv ∈ new_, P kv.1) :
    ∀ kv ∈ dictUpdate old new_, P kv.1 := by
  intro kv hkv
  unfold dictUpdate at hkv
  rcases List.mem_append.mp hkv with h | h
  · rcases List.mem_map.mp h with ⟨kv0, hkv0, heq⟩
    have := hold kv0 hkv0
    cases hfind : List.find? (fun kv2 => kv2.1 = kv0.1) new_ <;> rw [hfind] at heq
    · rw [← heq]; exact this
    · rw [← heq]; exact this
  · exact hnew kv (List.mem_filter.mp h).1

theorem depStep_edges_wf (ctx : Context) (fs : List String)
    (acc : DepState × List String) (file : PyFile)
    (h : ∀ kv ∈ acc.1.edges, ∃ d s, d ≠ s ∧ kv.1 = DOT_EDGE_DEFINITION d s) :
    ∀ kv ∈ (depStep ctx fs acc file).1.edges,
      ∃ d s, d ≠ s ∧ kv.1 = DOT_EDGE_DEFINITION d s := by
  unfold depStep
  cases file.content with
  | error e => exact h
  | ok lines =>
    exact dictUpdate_forall (fun x => ∃ d s, d ≠ s ∧ x = DOT_EDGE_DEFINITION d s)
      _ _ h (collect_include_dependencies_edges_wf ctx fs _ lines)

theorem collect_dependencies_edges_wf (ctx : Context) (fs : List String)
    (files : List PyFile) :
    ∀ kv ∈ (collect_dependencies ctx fs files).1.edges,
      ∃ d s, d ≠ s ∧ kv.1 = DOT_EDGE_DEFINITION d s := by
  unfold collect_dependencies
  generalize hst : (({} : DepState), ([] : List String)) = acc
  have h0 : ∀ kv ∈ acc.1.edges, ∃ d s, d ≠ s ∧ kv.1 = DOT_EDGE_DEFINITION d s := by
    subst hst; intro kv hkv; simp at hkv
  clear hst
  induction files generalizing acc with
  | nil => exact h0
  | cons file rest ih =>
    exact ih _ (depStep_edges_wf ctx fs acc file h0)

/-- The `DepState` component of the scan fold ignores the log component of
the accumulator. -/
theorem depFold_fst (ctx : Context) (fs : List String) :
    ∀ (files : List PyFile) (st : DepState) (logs1 logs2 : List String),
      (files.foldl (depStep ctx fs) (st, logs1)).1
        = (files.foldl (depStep ctx fs) (st, logs2)).1 := by
  intro files
  induction files with
  | nil => intro st logs1 logs2; rfl
  | cons file rest ih =>
    intro st logs1 logs2
    simp only [List.foldl_cons]
    cases hc : file.content with
    | error e =>
      simp only [depStep, hc]
      exact ih st _ _
    | ok lines =>
      simp only [depStep, hc]
      exact ih _ _ _

/-- The scan fold only ever appends to the log component. -/
theorem depFold_logs_mono (ctx : Context) (fs : List String) :
    ∀ (files : List PyFile) (st : DepState) (logs : List String),
      ∃ tail, (files.foldl (depStep ctx fs) (st, logs)).2 = logs ++ tail := by
  intro files
  induction files with
  | nil => intro st logs; exact ⟨[], by simp⟩
  | cons file rest ih =>
    intro st logs
    simp only [List.foldl_cons]
    cases hc : file.content with
    | error e =>
      simp only [depStep, hc]
      obtain ⟨tail, htail⟩ := ih st (logs ++ ["error while reading file_name \x27"
        ++ stripDotSlash file.name ++ "\x27"])
      refine ⟨("error while reading file_name \x27" ++ stripDotSlash file.name
        ++ "\x27") :: tail, ?_⟩
      rw [htail]
      simp
    | ok lines =>
      simp only [depStep, hc]
      obtain ⟨tail, htail⟩ := ih _ logs
      exact ⟨tail, htail⟩

/-! ## The claims -/

/-- Claim C1: under `module` merge, `foo.h` and `foo.cpp` (each including
`bar.h`) do collapse to the single display name `foo` and their edges to
`bar` merge into one edge — but evaluating the code on exactly this
scenario shows the merged edge's occurrence count is **1**, not 2:
`collect_dependencies` combines the per-file edge dicts with
`dict.update`, which *overwrites* the count at an existing key instead of
accumulating it across files. -/
theorem C1_module_merge_update_overwrites :
    to_display_version "foo.h" false "module" = "foo"
  ∧ to_display_version "foo.cpp" false "module" = "foo"
  ∧ (collect_dependencies { merge := "module" } ["foo.h", "foo.cpp", "bar.h"]
      [⟨"foo.h", .ok ["#include \"bar.h\""]⟩,
       ⟨"foo.cpp", .ok ["#include \"bar.h\""]⟩,
       ⟨"bar.h", .ok []⟩]).1.edges
      = [("    \"foo\" -> \"bar\"", 1)] :=
  ⟨by decide, by decide, by decide⟩

/-- Claim C2: with the `angle` filter a double-quoted include line indeed
yields no reference, but with the `quote` filter an angle-bracket include
line **does** yield a reference: `build_include_regex` compares
`quote_types` against the literal `'system'` (never `'quote'`), so the
documented value `quote` selects the catch-all pattern that matches every
include line. -/
theorem C2_quote_filter_behaviour :
    include_match "angle" "#include \"x.h\"".data = none
  ∧ include_match "quote" "#include <x.h>".data = some "<x.h>".data :=
  ⟨by decide, by decide⟩

/-- Claim C3: `search_includes` returns the first existing candidate of
the fixed list (relative to the including file with `../` collapsing,
then each extra include directory in order, then the token itself
relative to the working directory); in particular, whenever the
relative-to-including-file candidate exists it wins. -/
theorem C3_resolution_order (incl_stmt filename : String)
    (include_paths fs : List String) :
    search_includes incl_stmt filename include_paths fs
      = (resolve_candidates incl_stmt filename include_paths).find? (fs.contains ·)
  ∧ (fs.contains (tidy_path (joinPath (dirname filename) incl_stmt)) = true →
     search_includes incl_stmt filename include_paths fs
       = some (tidy_path (joinPath (dirname filename) incl_stmt))) := by
  have hmain : search_includes incl_stmt filename include_paths fs
      = (resolve_candidates incl_stmt filename include_paths).find? (fs.contains ·) := by
    unfold search_includes resolve_candidates
    by_cases h : fs.contains (tidy_path (joinPath (dirname filename) incl_stmt)) = true
    · rw [List.find?_cons_of_pos _ h]
      simp only [h, if_true]
    · rw [List.find?_cons_of_neg _ (by simpa using h)]
      simp only [h, if_false, Bool.false_eq_true]
      cases hsl : searchLoop incl_stmt fs include_paths with
      | some tmp =>
        rw [searchLoop_eq_find?] at hsl
        rw [List.find?_append, hsl]
        rfl
      | none =>
        rw [searchLoop_eq_find?] at hsl
        rw [List.find?_append, hsl]
        simp only [List.find?]
        by_cases hm : incl_stmt ∈ fs <;> simp [hm]
  refine ⟨hmain, fun h => ?_⟩
  rw [hmain]
  unfold resolve_candidates
  rw [List.find?_cons_of_pos _ h]

/-- A concrete instance of C3: `bar.h` included from `sub/a.cpp` is
resolvable both next to the including file and in the extra include
directory `inc`; the candidate relative to the including file wins. -/
theorem C3_resolution_order_witness :
    ["sub/bar.h", "inc/bar.h"].contains
        (tidy_path (joinPath (dirname "sub/a.cpp") "bar.h")) = true
  ∧ search_includes "bar.h" "sub/a.cpp" ["inc"] ["sub/bar.h", "inc/bar.h"]
      = some (tidy_path (joinPath (dirname "sub/a.cpp") "bar.h")) :=
  ⟨by decide,
   (C3_resolution_order "bar.h" "sub/a.cpp" ["inc"] ["sub/bar.h", "inc/bar.h"]).2
     (by decide)⟩

/-- Claim C4 fails on the code: when the two *distinct* files `a.cpp` and
`b.cpp` each include `common.h`, the two edges have distinct formatted
keys, so no edge statement for `common.h` carries a count of 2 (and the
emitted text carries no weight annotation at all). -/
theorem C4_two_files_no_weight_counterexample :
    (collect_dependencies {} ["a.cpp", "b.cpp", "common.h"]
      [⟨"a.cpp", .ok ["#include \"common.h\""]⟩,
       ⟨"b.cpp", .ok ["#include \"common.h\""]⟩,
       ⟨"common.h", .ok []⟩]).1.edges
      = [("    \"a.cpp\" -> \"common.h\"", 1), ("    \"b.cpp\" -> \"common.h\"", 1)]
  ∧ ¬ (∃ kv ∈ (collect_dependencies {} ["a.cpp", "b.cpp", "common.h"]
        [⟨"a.cpp", .ok ["#include \"common.h\""]⟩,
         ⟨"b.cpp", .ok ["#include \"common.h\""]⟩,
         ⟨"common.h", .ok []⟩]).1.edges, kv.2 = 2) :=
  ⟨by decide, by decide⟩

/-- Claim C4, amended: two distinct files including `common.h` produce two
distinct edge statements, each with count 1 and no weight suffix; a weight
attribute is emitted for an edge statement exactly when that edge's count
exceeds one. -/
theorem C4_amended_weight_semantics :
    write_edge_definitions (collect_dependencies {} ["a.cpp", "b.cpp", "common.h"]
      [⟨"a.cpp", .ok ["#include \"common.h\""]⟩,
       ⟨"b.cpp", .ok ["#include \"common.h\""]⟩,
       ⟨"common.h", .ok []⟩]).1.edges
      = "    \"a.cpp\" -> \"common.h\"\n    \"b.cpp\" -> \"common.h\"\n"
  ∧ (∀ (k : String) (n : Nat), 1 < n →
      write_edge_definitions [(k, n)] = k ++ " [penwidth=" ++ toString n ++ "]" ++ "\n")
  ∧ (∀ (k : String) (n : Nat), n ≤ 1 →
      write_edge_definitions [(k, n)] = k ++ "\n") := by
  refine ⟨by decide, fun k n hn => ?_, fun k n hn => ?_⟩
  · simp [write_edge_definitions, hn, String.join]
  · have : ¬ (n > 1) := by omega
    simp [write_edge_definitions, this, String.join]

/-- A concrete instance of the amended C4: an edge of count 2 is rendered
with the weight annotation, an edge of count 1 without. -/
theorem C4_amended_weight_semantics_witness :
    (1 < 2 ∧ write_edge_definitions [("e", 2)] = "e" ++ " [penwidth=" ++ toString 2 ++ "]" ++ "\n")
  ∧ (1 ≤ 1 ∧ write_edge_definitions [("e", 1)] = "e" ++ "\n") :=
  ⟨⟨by decide, (C4_amended_weight_semantics.2.1 "e" 2 (by decide))⟩,
   ⟨by decide, (C4_amended_weight_semantics.2.2 "e" 1 (by decide))⟩⟩

/-- Claim C5: a matched include line whose token resolves to no candidate
on disk adds the diagnostic message (and nothing else) to the state: no
edge and no cluster is recorded for it; processing of the following lines
continues from that state unchanged; and the recorded unresolved
references are written out as a lexicographically sorted permutation of
the recorded set. -/
theorem C5_unresolved_reference (ctx : Context) (fs : List String)
    (fname : String) (st : DepState) (line : String) (grp : List Char)
    (hm : include_match ctx.quote_types line.data = some grp)
    (hs : search_includes (raw_of grp) fname ctx.include_paths fs = none) :
    processLine ctx fs fname st line
      = { st with notfound := setAdd st.notfound (String.mk grp ++ " from " ++ fname) }
  ∧ (∀ rest : List String,
      rest.foldl (processLine ctx fs fname) (processLine ctx fs fname st line)
        = rest.foldl (processLine ctx fs fname)
            { st with notfound := setAdd st.notfound (String.mk grp ++ " from " ++ fname) })
  ∧ (∀ nf : List String,
      (nf.insertionSort (· ≤ ·)).Perm nf
      ∧ List.Sorted (· ≤ ·) (nf.insertionSort (· ≤ ·))
      ∧ alert_lines nf = (nf.insertionSort (· ≤ ·)).map
          (fun msg => "Include file_name not found: " ++ msg ++ "\n")) := by
  have hone : processLine ctx fs fname st line
      = { st with notfound := setAdd st.notfound (String.mk grp ++ " from " ++ fname) } := by
    simp only [processLine, hm, hs]
  refine ⟨hone, fun rest => by rw [hone], fun nf =>
    ⟨List.perm_insertionSort _ nf, List.sorted_insertionSort _ nf, rfl⟩⟩

/-- A concrete instance of C5: `#include "missing.h"` in `a.cpp` with no
`missing.h` anywhere records the diagnostic and leaves edges and clusters
empty. -/
theorem C5_unresolved_reference_witness :
    include_match ("both" : String) "#include \"missing.h\"".data
        = some "\"missing.h\"".data
  ∧ search_includes (raw_of "\"missing.h\"".data) "a.cpp" [] ["a.cpp"] = none
  ∧ processLine {} ["a.cpp"] "a.cpp" {} "#include \"missing.h\""
      = { notfound := ["\"missing.h\" from a.cpp"] } :=
  ⟨by decide, by decide,
   by
    have h := (C5_unresolved_reference {} ["a.cpp"] "a.cpp" {}
      "#include \"missing.h\"" "\"missing.h\"".data (by decide) (by decide)).1
    rw [h]
    decide⟩

/-- Claim C6: the File Collector returns exactly the walked names that
end in a dot followed by one of the eight C/C++ suffixes (case-sensitive),
as paths relative to the working directory; names not of this shape are
excluded no matter what the corresponding file holds (the collector never
reads contents at all). -/
theorem C6_collector_suffix_filter (cwd : String)
    (walk : List (String × List String)) (x : String) :
    x ∈ collect_cfiles cwd walk
      ↔ ∃ e ∈ walk, ∃ name ∈ e.2,
          (∃ s ∈ C_FILE_SUFFIXES, ∃ stem : String, name = stem ++ "." ++ s)
          ∧ x = relpath cwd (joinPath e.1 name) := by
  unfold collect_cfiles
  rw [List.mem_flatMap]
  constructor
  · rintro ⟨e, he, hx⟩
    rcases List.mem_map.mp hx with ⟨name, hname, hrel⟩
    have hf := List.mem_filter.mp hname
    exact ⟨e, he, name, hf.1, (c_file_match_iff name).mp hf.2, hrel.symm⟩
  · rintro ⟨e, he, name, hname, hsuf, hx⟩
    exact ⟨e, he, List.mem_map.mpr
      ⟨name, List.mem_filter.mpr ⟨hname, (c_file_match_iff name).mpr hsuf⟩, hx.symm⟩⟩

/-- A concrete instance of C6: of a walk entry holding `a.cpp`, `x.H` and
`README`, only `a.cpp` is collected. -/
theorem C6_collector_suffix_filter_witness :
    "a.cpp" ∈ collect_cfiles "/root" [(".", ["a.cpp", "x.H", "README"])]
  ∧ collect_cfiles "/root" [(".", ["a.cpp", "x.H", "README"])] = ["a.cpp"] :=
  ⟨(C6_collector_suffix_filter "/root" [(".", ["a.cpp", "x.H", "README"])] "a.cpp").mpr
      ⟨(".", ["a.cpp", "x.H", "README"]), by decide, "a.cpp", by decide,
        ⟨"cpp", by decide, "a", by decide⟩, by decide⟩,
   by decide⟩

/-- Claim C7: a directory with `a.cpp` containing `#include "b.h"` and
`b.h` present, under default options, yields exactly one edge statement
`"a.cpp" -> "b.h"` (including file on the left) with no weight suffix. -/
theorem C7_single_include_scenario :
    (collect_dependencies {} ["a.cpp", "b.h"]
      [⟨"a.cpp", .ok ["#include \"b.h\""]⟩, ⟨"b.h", .ok ["int x;"]⟩]).1.edges
      = [("    \"a.cpp\" -> \"b.h\"", 1)]
  ∧ write_edge_definitions (collect_dependencies {} ["a.cpp", "b.h"]
      [⟨"a.cpp", .ok ["#include \"b.h\""]⟩, ⟨"b.h", .ok ["int x;"]⟩]).1.edges
      = "    \"a.cpp\" -> \"b.h\"\n" :=
  ⟨by decide, by decide⟩

/-- Claim C8: a file whose read raises `IOError` contributes nothing to
the edges, clusters or unresolved references — the scan result equals the
result without that file, so the remaining files are still processed —
and the error is logged. -/
theorem C8_read_error_skip (ctx : Context) (fs : List String)
    (pre post : List PyFile) (nm : String) :
    (collect_dependencies ctx fs (pre ++ ⟨nm, .error ()⟩ :: post)).1
      = (collect_dependencies ctx fs (pre ++ post)).1
  ∧ ("error while reading file_name \x27" ++ stripDotSlash nm ++ "\x27")
      ∈ (collect_dependencies ctx fs (pre ++ ⟨nm, .error ()⟩ :: post)).2 := by
  unfold collect_dependencies
  rw [List.foldl_append, List.foldl_append, List.foldl_cons]
  have hstep : depStep ctx fs (List.foldl (depStep ctx fs) ({}, []) pre) ⟨nm, .error ()⟩
      = ((List.foldl (depStep ctx fs) ({}, []) pre).1,
         (List.foldl (depStep ctx fs) ({}, []) pre).2
           ++ ["error while reading file_name \x27" ++ stripDotSlash nm ++ "\x27"]) := rfl
  rw [hstep]
  constructor
  · rw [depFold_fst ctx fs post _ _ (List.foldl (depStep ctx fs) ({}, []) pre).2]
  · obtain ⟨tail, htail⟩ := depFold_logs_mono ctx fs post
      (List.foldl (depStep ctx fs) ({}, []) pre).1
      ((List.foldl (depStep ctx fs) ({}, []) pre).2
        ++ ["error while reading file_name \x27" ++ stripDotSlash nm ++ "\x27"])
    rw [htail]
    simp

/-- Claim C9: in the embedding — where the walked tree, the file contents
and the configuration are explicit inputs — the emitted graph text is a
function of those inputs with the timestamp confined to the header: there
is one body text such that for every timestamp the output is the header
for that timestamp followed by that fixed body, and the diagnostic stream
does not depend on the timestamp at all.  Two runs on an unchanged tree
therefore differ at most in the header's timestamp. -/
theorem C9_output_deterministic_mod_timestamp (ctx : Context) (realcwd : String)
    (fs : List String) (files : List PyFile) :
    ∃ body : String, ∀ ts : String,
      output_dependencies ctx realcwd ts (collect_dependencies ctx fs files).1
        = (write_header ctx.src_dir realcwd ts ++ body,
           alert_notfounds (collect_dependencies ctx fs files).1.notfound) :=
  ⟨write_edge_definitions (collect_dependencies ctx fs files).1.edges
     ++ write_cluster_definitions (collect_dependencies ctx fs files).1.clusters
     ++ write_footer,
   fun ts => by
    unfold output_dependencies
    rw [String.append_assoc, String.append_assoc, String.append_assoc]⟩

/-- Claim C10: every key of the final edge dict is a
`DOT_EDGE_DEFINITION` of two *different* node names (under `file`/`module`
merge the two display names, under `directory` merge the two directories),
so the graph never contains a self-loop edge; in particular `foo.cpp`
including `foo.h` under `module` merge records no edge. -/
theorem C10_no_self_loop (ctx : Context) (fs : List String) (files : List PyFile) :
    (∀ kv ∈ (collect_dependencies ctx fs files).1.edges,
        ∃ d s, d ≠ s ∧ kv.1 = DOT_EDGE_DEFINITION d s)
  ∧ (collect_dependencies { merge := "module" } ["foo.cpp", "foo.h"]
       [⟨"foo.cpp", .ok ["#include \"foo.h\""]⟩]).1.edges = [] :=
  ⟨collect_dependencies_edges_wf ctx fs files, by decide⟩

/-- A concrete instance of C10: the single edge of the C7 scenario indeed
joins two different node names. -/
theorem C10_no_self_loop_witness :
    ∃ d s, d ≠ s ∧ ("    \"a.cpp\" -> \"b.h\"" : String) = DOT_EDGE_DEFINITION d s :=
  (C10_no_self_loop {} ["a.cpp", "b.h"]
      [⟨"a.cpp", .ok ["#include \"b.h\""]⟩, ⟨"b.h", .ok ["int x;"]⟩]).1
    ("    \"a.cpp\" -> \"b.h\"", 1) (by decide)

end Cpp2Dot
